import Mathlib

/-!
Shallow embedding of the WellCut audio-processing core: segmentation
(detectVoiceThreshold, detectSpeechSegments), statistics
(calculateAudioStats, calculateClipStatistics), the effect chain
(applyFadeIn, applyFadeOut, applyNoiseReduction, applyNormalization),
the WAV encoder (audioBufferToWav) and the batch orchestrator
(batchProcessAudioClips).

Samples are modelled as exact real numbers; IEEE-754 rounding is not
modelled.  Math.round, Math.floor and the DataView integer truncation
are modelled exactly.  Math.log10 is modelled into WithBot so that the
JavaScript value -Infinity (the value of Math.log10 0) is representable
as the bottom element.
-/

namespace WellCut

noncomputable section

/-- JavaScript Math.round: round half towards positive infinity. -/
def jsRound (x : ℝ) : ℤ := ⌊x + 1 / 2⌋

/-- Analysis window size in samples: Math.round(sampleRate * 0.05).
A 50 ms window, as in detectVoiceThreshold and detectSpeechSegments. -/
def windowSize (sampleRate : ℕ) : ℕ := (jsRound ((sampleRate : ℝ) * 0.05)).toNat

/-- RMS of one analysis window: the source accumulates sumSquared over the
window and divides by the window length (end - i) before taking sqrt. -/
def windowRms (win : List ℝ) : ℝ :=
  Real.sqrt ((win.map (fun x => x * x)).sum / (win.length : ℝ))

/-- Loop state of the silence detector in detectVoiceThreshold. -/
structure DetectState where
  inSilence : Bool
  silenceStart : ℝ
  consecutiveSilenceFrames : ℕ
  consecutiveNonSilenceFrames : ℕ
  segments : List (ℝ × ℝ)

/-- One iteration of the detection loop body of detectVoiceThreshold,
processing the window starting at sample index i whose RMS is rms.
Mirrors the source: a below-threshold window increments
consecutiveSilenceFrames and zeroes consecutiveNonSilenceFrames; an
at-or-above-threshold window increments consecutiveNonSilenceFrames and
zeroes consecutiveSilenceFrames only when a silence interval actually
ends (consecutiveNonSilenceFrames >= 2 while inSilence). -/
def detectStep (sampleRate : ℕ) (threshold minSilenceDuration : ℝ) (w i : ℕ)
    (st : DetectState) (rms : ℝ) : DetectState :=
  if rms < threshold then
    let csf := st.consecutiveSilenceFrames + 1
    if st.inSilence = false ∧ 2 ≤ csf then
      { st with
        inSilence := true
        silenceStart := ((i : ℝ) - (w : ℝ)) / (sampleRate : ℝ)
        consecutiveSilenceFrames := csf
        consecutiveNonSilenceFrames := 0 }
    else
      { st with consecutiveSilenceFrames := csf, consecutiveNonSilenceFrames := 0 }
  else
    let cnf := st.consecutiveNonSilenceFrames + 1
    if st.inSilence = true ∧ 2 ≤ cnf then
      { inSilence := false
        silenceStart := st.silenceStart
        consecutiveSilenceFrames := 0
        consecutiveNonSilenceFrames := cnf
        segments :=
          if minSilenceDuration ≤ (i : ℝ) / (sampleRate : ℝ) - st.silenceStart then
            st.segments ++ [(st.silenceStart, (i : ℝ) / (sampleRate : ℝ))]
          else st.segments }
    else
      { st with consecutiveNonSilenceFrames := cnf }

/-- The windowed for-loop of detectVoiceThreshold (for i = 0; i < length;
i += windowSize): i is the start index of the current window, the list
holds the samples from index i on, and the fuel (initially the full
sample count) bounds the number of remaining samples; since every
iteration with a positive window size consumes at least one sample, the
fuel never runs out on the calls made below. -/
def detectLoop (sampleRate : ℕ) (threshold minSilenceDuration : ℝ) (w : ℕ) :
    ℕ → ℕ → List ℝ → DetectState → DetectState
  | 0, _, _, st => st
  | _ + 1, _, [], st => st
  | fuel + 1, i, x :: xs, st =>
      detectLoop sampleRate threshold minSilenceDuration w fuel (i + w)
        ((x :: xs).drop w)
        (detectStep sampleRate threshold minSilenceDuration w i st
          (windowRms ((x :: xs).take w)))

/-- Specification predicate (used only to state and prove the segment-list
invariant): at loop head index i, every committed segment is nonneg,
properly ordered, at least minSilenceDuration long, ends no later than
(i - w) / sampleRate, the segment list is pairwise ordered, a positive
silence counter outside silence implies at least one window was
processed, and an open silence interval is backdated consistently. -/
def DetectInv (w sampleRate : ℕ) (minSilenceDuration : ℝ) (i : ℕ)
    (st : DetectState) : Prop :=
  (∀ s ∈ st.segments,
      0 ≤ s.1 ∧ s.1 < s.2 ∧ minSilenceDuration ≤ s.2 - s.1) ∧
  (∀ s ∈ st.segments, s.2 ≤ ((i : ℝ) - (w : ℝ)) / (sampleRate : ℝ)) ∧
  List.Pairwise (fun a b : ℝ × ℝ => a.2 ≤ b.1) st.segments ∧
  (st.inSilence = false → 1 ≤ st.consecutiveSilenceFrames → w ≤ i) ∧
  (st.inSilence = true →
    0 ≤ st.silenceStart ∧
    st.silenceStart ≤ ((i : ℝ) - 2 * (w : ℝ)) / (sampleRate : ℝ) ∧
    ∀ s ∈ st.segments, s.2 ≤ st.silenceStart)

/-- The decoded waveform: per-channel sample lists and a sample rate. -/
structure AudioBuffer where
  channels : List (List ℝ)
  sampleRate : ℕ

/-- buffer.numberOfChannels. -/
def AudioBuffer.numberOfChannels (b : AudioBuffer) : ℕ := b.channels.length

/-- buffer.length: samples per channel (all channels have equal length). -/
def AudioBuffer.length (b : AudioBuffer) : ℕ := (b.channels.headD []).length

/-- buffer.duration = length / sampleRate, in seconds. -/
def AudioBuffer.duration (b : AudioBuffer) : ℝ :=
  (b.length : ℝ) / (b.sampleRate : ℝ)

/-- buffer.getChannelData(c). -/
def AudioBuffer.getChannelData (b : AudioBuffer) (c : ℕ) : List ℝ :=
  b.channels.getD c []

/-- The record returned by detectVoiceThreshold. -/
structure VoiceThresholdResult where
  thresholds : List ℝ
  silenceSegments : List (ℝ × ℝ)

/-- detectVoiceThreshold: windowed-RMS silence detection on channel 0 with
a dB threshold converted to linear amplitude via 10^(dB/20), a 50 ms
window, entry/exit counters, and a trailing close of an open silence at
the end of the buffer; committed intervals must span at least
minSilenceDuration seconds. -/
def detectVoiceThreshold (buffer : AudioBuffer)
    (minSilenceDuration thresholdDB : ℝ) : VoiceThresholdResult :=
  let channelData := buffer.getChannelData 0
  let sampleRate := buffer.sampleRate
  let amplitudes := (List.range 10).map (fun i => (i : ℝ) / 10)
  let threshold := (10 : ℝ) ^ (thresholdDB / 20)
  let w := windowSize sampleRate
  let final := detectLoop sampleRate threshold minSilenceDuration w
    channelData.length 0 channelData ⟨false, 0, 0, 0, []⟩
  let segments :=
    if final.inSilence then
      let silenceEnd := (channelData.length : ℝ) / (sampleRate : ℝ)
      if minSilenceDuration ≤ silenceEnd - final.silenceStart then
        final.segments ++ [(final.silenceStart, silenceEnd)]
      else final.segments
    else final.segments
  { thresholds := amplitudes, silenceSegments := segments }

/-- One iteration of the detection loop body of detectSpeechSegments; the
source of detectSpeechSegments is line-for-line the same state machine
as detectVoiceThreshold. -/
def speechDetectStep (sampleRate : ℕ) (threshold minSilenceDuration : ℝ) (w i : ℕ)
    (st : DetectState) (rms : ℝ) : DetectState :=
  if rms < threshold then
    let csf := st.consecutiveSilenceFrames + 1
    if st.inSilence = false ∧ 2 ≤ csf then
      { st with
        inSilence := true
        silenceStart := ((i : ℝ) - (w : ℝ)) / (sampleRate : ℝ)
        consecutiveSilenceFrames := csf
        consecutiveNonSilenceFrames := 0 }
    else
      { st with consecutiveSilenceFrames := csf, consecutiveNonSilenceFrames := 0 }
  else
    let cnf := st.consecutiveNonSilenceFrames + 1
    if st.inSilence = true ∧ 2 ≤ cnf then
      { inSilence := false
        silenceStart := st.silenceStart
        consecutiveSilenceFrames := 0
        consecutiveNonSilenceFrames := cnf
        segments :=
          if minSilenceDuration ≤ (i : ℝ) / (sampleRate : ℝ) - st.silenceStart then
            st.segments ++ [(st.silenceStart, (i : ℝ) / (sampleRate : ℝ))]
          else st.segments }
    else
      { st with consecutiveNonSilenceFrames := cnf }

/-- The windowed for-loop of detectSpeechSegments. -/
def speechDetectLoop (sampleRate : ℕ) (threshold minSilenceDuration : ℝ) (w : ℕ) :
    ℕ → ℕ → List ℝ → DetectState → DetectState
  | 0, _, _, st => st
  | _ + 1, _, [], st => st
  | fuel + 1, i, x :: xs, st =>
      speechDetectLoop sampleRate threshold minSilenceDuration w fuel (i + w)
        ((x :: xs).drop w)
        (speechDetectStep sampleRate threshold minSilenceDuration w i st
          (windowRms ((x :: xs).take w)))

/-- The record returned by detectSpeechSegments.  Despite the field name,
the source pushes the silence intervals themselves into speechSegments. -/
structure SpeechDetectionResult where
  thresholds : List ℝ
  speechSegments : List (ℝ × ℝ)

/-- detectSpeechSegments, translated independently from its own source
lines; its body is the same algorithm as detectVoiceThreshold. -/
def detectSpeechSegments (buffer : AudioBuffer)
    (minSilenceDuration thresholdDB : ℝ) : SpeechDetectionResult :=
  let channelData := buffer.getChannelData 0
  let sampleRate := buffer.sampleRate
  let amplitudes := (List.range 10).map (fun i => (i : ℝ) / 10)
  let threshold := (10 : ℝ) ^ (thresholdDB / 20)
  let w := windowSize sampleRate
  let final := speechDetectLoop sampleRate threshold minSilenceDuration w
    channelData.length 0 channelData ⟨false, 0, 0, 0, []⟩
  let segments :=
    if final.inSilence then
      let silenceEnd := (channelData.length : ℝ) / (sampleRate : ℝ)
      if minSilenceDuration ≤ silenceEnd - final.silenceStart then
        final.segments ++ [(final.silenceStart, silenceEnd)]
      else final.segments
    else final.segments
  { thresholds := amplitudes, speechSegments := segments }

/-- JavaScript Math.log10 modelled into WithBot: Math.log10 0 = -Infinity
is the bottom element.  (Math.log10 of a negative argument is NaN, also a
non-finite value; every argument passed below is a nonnegative RMS, so
that case never occurs.) -/
def jsLog10 (x : ℝ) : WithBot ℝ :=
  if x ≤ 0 then ⊥ else ((Real.logb 10 x : ℝ) : WithBot ℝ)

/-- The record returned by calculateAudioStats. -/
structure AudioStats where
  max : WithBot ℝ
  min : WithTop ℝ
  mean : ℝ
  rms : ℝ
  dbFS : WithBot ℝ
  crest : WithBot ℝ

/-- calculateAudioStats: the live-buffer statistics.  max starts at
-Infinity (bottom) and min at Infinity (top), as in the source; dbFS is
20 * Math.log10(rms) with no clamping of the argument.  (crest is
max / rms; its JavaScript division-by-zero behaviour is not used by any
theorem below.) -/
def calculateAudioStats (data : List ℝ) : AudioStats :=
  let sum := data.sum
  let sumSquared := (data.map (fun v => v * v)).sum
  let maxV : WithBot ℝ := data.foldl (fun m v => max m ((v : ℝ) : WithBot ℝ)) ⊥
  let minV : WithTop ℝ := data.foldl (fun m v => min m ((v : ℝ) : WithTop ℝ)) ⊤
  let mean := sum / (data.length : ℝ)
  let rms := Real.sqrt (sumSquared / (data.length : ℝ))
  { max := maxV
    min := minV
    mean := mean
    rms := rms
    dbFS := (jsLog10 rms).map (fun l => 20 * l)
    crest := maxV.map (fun m => m / rms) }

/-- The record returned by calculateClipStatistics. -/
structure ClipStatistics where
  avg : ℝ
  rms : ℝ
  maxAbs : WithBot ℝ
  avgDb : ℝ
  peakDb : WithBot ℝ

/-- calculateClipStatistics: statistics of channel 0 over the sample range
[floor(startTime * sampleRate), floor(endTime * sampleRate)).  The dB
values floor a zero average or peak at 0.00001 (the JavaScript
expression avg || 0.00001) before taking log10.  Out-of-range sample
reads (NaN in JavaScript) are not modelled; the theorems below only use
ranges inside the buffer.  JavaScript would also treat the -Infinity
initial max of an empty range as truthy; an empty range is modelled as a
bottom peak. -/
def calculateClipStatistics (buffer : AudioBuffer) (startTime endTime : ℝ) :
    ClipStatistics :=
  let sampleRate := buffer.sampleRate
  let startSample := (⌊startTime * (sampleRate : ℝ)⌋).toNat
  let endSample := (⌊endTime * (sampleRate : ℝ)⌋).toNat
  let channelData := buffer.getChannelData 0
  let slice := (channelData.drop startSample).take (endSample - startSample)
  let sum := (slice.map (fun v => |v|)).sum
  let sumSquared := (slice.map (fun v => v * v)).sum
  let maxAbs : WithBot ℝ := slice.foldl (fun m v => max m ((|v| : ℝ) : WithBot ℝ)) ⊥
  let len := endSample - startSample
  let avg := sum / (len : ℝ)
  let rms := Real.sqrt (sumSquared / (len : ℝ))
  { avg := avg
    rms := rms
    maxAbs := maxAbs
    avgDb := 20 * Real.logb 10 (if avg = 0 then 0.00001 else avg)
    peakDb := maxAbs.map (fun m => 20 * Real.logb 10 (if m = 0 then 0.00001 else m)) }

/-- applyFadeIn: fadeInSamples = min(floor(fadeDuration * sampleRate),
length); sample i < fadeInSamples is scaled by i / fadeInSamples.  The
source mutates the buffer in place; the embedding returns the resulting
buffer. -/
def applyFadeIn (buffer : AudioBuffer) (fadeDuration : ℝ) : AudioBuffer :=
  let fadeInSamples :=
    (min ⌊fadeDuration * (buffer.sampleRate : ℝ)⌋ (buffer.length : ℤ)).toNat
  { buffer with
    channels := buffer.channels.map (fun channelData =>
      channelData.mapIdx (fun i x =>
        if i < fadeInSamples then x * ((i : ℝ) / (fadeInSamples : ℝ)) else x)) }

/-- applyFadeOut: fadeOutSamples = min(floor(fadeDuration * sampleRate),
length); sample startIndex + j (for j < fadeOutSamples, with startIndex =
length - fadeOutSamples) is scaled by 1 - j / fadeOutSamples. -/
def applyFadeOut (buffer : AudioBuffer) (fadeDuration : ℝ) : AudioBuffer :=
  let fadeOutSamples :=
    (min ⌊fadeDuration * (buffer.sampleRate : ℝ)⌋ (buffer.length : ℤ)).toNat
  let startIndex := buffer.length - fadeOutSamples
  { buffer with
    channels := buffer.channels.map (fun channelData =>
      channelData.mapIdx (fun i x =>
        if startIndex ≤ i then
          x * (1 - ((i - startIndex : ℕ) : ℝ) / (fadeOutSamples : ℝ))
        else x)) }

/-- applyNoiseReduction: per channel, the noise floor is the average
absolute amplitude of the first min(floor(sampleRate * 0.5), length)
samples; the threshold is noiseAvg * (1 + amount * 5); samples below the
threshold in absolute value are scaled by (1 - amount), all others by
(1 - amount * 0.5).  A new buffer is produced; the input is not
mutated. -/
def applyNoiseReduction (buffer : AudioBuffer) (noiseReductionAmount : ℝ) :
    AudioBuffer :=
  { buffer with
    channels := buffer.channels.map (fun inputData =>
      let noiseSampleLength :=
        min (⌊(buffer.sampleRate : ℝ) * 0.5⌋).toNat buffer.length
      let noiseSum := ((inputData.take noiseSampleLength).map (fun v => |v|)).sum
      let noiseAvg := noiseSum / (noiseSampleLength : ℝ)
      let threshold := noiseAvg * (1 + noiseReductionAmount * 5)
      inputData.map (fun s =>
        if |s| < threshold then s * (1 - noiseReductionAmount)
        else s * (1 - noiseReductionAmount * 0.5))) }

/-- The running maximum of applyNormalization: maxAmplitude starts at 0
and each sample with |sample| > maxAmplitude replaces it. -/
def peakAmplitude (buffer : AudioBuffer) : ℝ :=
  buffer.channels.foldl
    (fun m channelData =>
      channelData.foldl (fun acc v => if |v| > acc then |v| else acc) m) 0

/-- applyNormalization: gain 10^((targetDb - 20 * log10 maxAmplitude)/20)
applied to every sample, then hard-clipped to [-1, 1].  (On an all-zero
buffer the source computes log10 0 = -Infinity and an infinite gain; the
theorems below assume a nonzero peak, as does the claim.) -/
def applyNormalization (buffer : AudioBuffer) (targetDb : ℝ) : AudioBuffer :=
  let maxAmplitude := peakAmplitude buffer
  let currentDbFs := 20 * Real.logb 10 maxAmplitude
  let dbGain := targetDb - currentDbFs
  let linearGain := (10 : ℝ) ^ (dbGain / 20)
  { buffer with
    channels := buffer.channels.map (fun inputData =>
      inputData.map (fun s =>
        let y := s * linearGain
        if y > 1 then 1 else if y < -1 then -1 else y)) }

/-- Little-endian bytes of DataView.setUint16. -/
def u16le (n : ℕ) : List ℕ := [n % 256, n / 256 % 256]

/-- Little-endian bytes of DataView.setUint32. -/
def u32le (n : ℕ) : List ℕ :=
  [n % 256, n / 256 % 256, n / 2 ^ 16 % 256, n / 2 ^ 24 % 256]

/-- JavaScript truncation towards zero, as applied by DataView.setInt16 to
a fractional argument. -/
def jsTrunc (x : ℝ) : ℤ := if 0 ≤ x then ⌊x⌋ else ⌈x⌉

/-- One PCM16 sample of audioBufferToWav: clamp to [-1, 1], scale by
0x8000 when negative and by 0x7FFF otherwise. -/
def pcm16 (s : ℝ) : ℤ :=
  let sample := max (-1) (min 1 s)
  jsTrunc (if sample < 0 then sample * 0x8000 else sample * 0x7FFF)

/-- Little-endian bytes of DataView.setInt16: two's complement mod 2^16. -/
def i16le (z : ℤ) : List ℕ := u16le (z % 65536).toNat

/-- The byte codes written by writeString for the four chunk tags. -/
def tagRIFF : List ℕ := [82, 73, 70, 70]

/-- The byte codes of the WAVE tag. -/
def tagWAVE : List ℕ := [87, 65, 86, 69]

/-- The byte codes of the fmt-space tag. -/
def tagFmt : List ℕ := [102, 109, 116, 32]

/-- The byte codes of the data tag. -/
def tagData : List ℕ := [100, 97, 116, 97]

/-- audioBufferToWav: the 44-byte RIFF/WAVE header (all integers
little-endian) followed by the PCM16 payload, mono from channel 0 or
stereo interleaving channels 0 and 1 sample-by-sample; every write in
the source is sequential, at consecutive offsets, so the byte buffer is
the concatenation below. -/
def audioBufferToWav (buffer : AudioBuffer) : List ℕ :=
  let numOfChannels := buffer.numberOfChannels
  let totalLength := buffer.length * numOfChannels * 2 + 44
  let sampleRate := buffer.sampleRate
  tagRIFF ++ u32le (totalLength - 8) ++ tagWAVE ++ tagFmt ++
    u32le 16 ++ u16le 1 ++ u16le numOfChannels ++ u32le sampleRate ++
    u32le (sampleRate * numOfChannels * 2) ++ u16le (numOfChannels * 2) ++
    u16le 16 ++ tagData ++ u32le (totalLength - 44) ++
    (if numOfChannels = 1 then
      (buffer.getChannelData 0).flatMap (fun s => i16le (pcm16 s))
    else
      (List.zip (buffer.getChannelData 0) (buffer.getChannelData 1)).flatMap
        (fun p => i16le (pcm16 p.1) ++ i16le (pcm16 p.2)))

/-- Little-endian decoding of two bytes at an offset. -/
def decodeU16le (bytes : List ℕ) (off : ℕ) : ℕ :=
  bytes.getD off 0 + 256 * bytes.getD (off + 1) 0

/-- Little-endian decoding of four bytes at an offset. -/
def decodeU32le (bytes : List ℕ) (off : ℕ) : ℕ :=
  bytes.getD off 0 + 256 * bytes.getD (off + 1) 0 +
    2 ^ 16 * bytes.getD (off + 2) 0 + 2 ^ 24 * bytes.getD (off + 3) 0

/-- The options record passed to processAudioClip by
batchProcessAudioClips (it carries no equalizer bands, so the equalizer
stage of processAudioClip is never entered on the batch path). -/
structure ProcessingOptions where
  fadeIn : Option ℝ := none
  fadeOut : Option ℝ := none
  noiseReduction : Option ℝ := none
  normalize : Bool := false
  normalizeTarget : Option ℝ := none
  quality : Option ℝ := none

/-- Models the OfflineAudioContext extraction inside processAudioClip (a
Web Audio platform call outside this repository): a buffer-source
started at offset startTime for endTime - startTime seconds, rendered
into ceil((endTime - startTime) * sampleRate) frames per channel. -/
def renderRange (buffer : AudioBuffer) (startTime endTime : ℝ) : AudioBuffer :=
  let n := (⌈(endTime - startTime) * (buffer.sampleRate : ℝ)⌉).toNat
  let s0 := (⌊startTime * (buffer.sampleRate : ℝ)⌋).toNat
  { sampleRate := buffer.sampleRate
    channels := buffer.channels.map (fun channelData =>
      (List.range n).map (fun k => channelData.getD (s0 + k) 0)) }

/-- processAudioClip on the batch path: render the requested range, apply
the optional effect stages in source order (fade in, fade out, noise
reduction, normalization; the equalizer guard is never taken because
ProcessingOptions carries no bands), then encode.  Every branch of the
format switch in the source encodes through audioBufferToWav — only the
MIME label differs — so the format argument is omitted and the encoded
bytes are returned.  The JavaScript default normalizeTarget || -3 maps a
missing or zero target to -3. -/
def processAudioClip (startTime endTime : ℝ) (originalBuffer : AudioBuffer)
    (options : ProcessingOptions) : List ℕ :=
  let rendered := renderRange originalBuffer startTime endTime
  let rendered := match options.fadeIn with
    | some v => if 0 < v then applyFadeIn rendered (min v (rendered.duration / 2))
                else rendered
    | none => rendered
  let rendered := match options.fadeOut with
    | some v => if 0 < v then applyFadeOut rendered (min v (rendered.duration / 2))
                else rendered
    | none => rendered
  let rendered := match options.noiseReduction with
    | some v => if 0 < v then applyNoiseReduction rendered v else rendered
    | none => rendered
  let rendered :=
    if options.normalize then
      applyNormalization rendered
        (match options.normalizeTarget with
          | some v => if v = 0 then -3 else v
          | none => -3)
    else rendered
  audioBufferToWav rendered

/-- One entry of AudioProcessingReport.clips. -/
structure ClipReport where
  startTime : ℝ
  endTime : ℝ
  duration : ℝ
  peakDb : WithBot ℝ
  avgDb : ℝ

/-- AudioProcessingReport.  processingTimeMs is wall-clock time in the
source (performance.now differences) and is modelled as 0. -/
structure AudioProcessingReport where
  totalClips : ℕ
  totalDuration : ℝ
  processedDuration : ℝ
  processingTimeMs : ℝ
  clips : List ClipReport

/-- batchProcessAudioClips: totalDuration is summed over all ranges up
front; then each range is processed in order, appending its encoded
bytes, accumulating processedDuration, and appending a ClipReport whose
dB statistics come from calculateClipStatistics on the original source
buffer.  The progress callback performs no state change and is not
modelled. -/
def batchProcessAudioClips (clips : List (ℝ × ℝ))
    (originalBuffer : AudioBuffer) (options : ProcessingOptions) :
    List (List ℕ) × AudioProcessingReport :=
  let totalDuration := (clips.map (fun c => c.2 - c.1)).sum
  let acc := clips.foldl
    (fun (acc : List (List ℕ) × List ClipReport × ℝ) clip =>
      let clipDuration := clip.2 - clip.1
      let audioBlob := processAudioClip clip.1 clip.2 originalBuffer options
      let statistics := calculateClipStatistics originalBuffer clip.1 clip.2
      (acc.1 ++ [audioBlob],
       acc.2.1 ++ [{ startTime := clip.1
                     endTime := clip.2
                     duration := clipDuration
                     peakDb := statistics.peakDb
                     avgDb := statistics.avgDb }],
       acc.2.2 + clipDuration))
    ([], [], 0)
  (acc.1,
   { totalClips := clips.length
     totalDuration := totalDuration
     processedDuration := acc.2.2
     processingTimeMs := 0
     clips := acc.2.1 })

/-! Theorems. -/

theorem speechDetectStep_eq_detectStep : speechDetectStep = detectStep := rfl

theorem speechDetectLoop_eq_detectLoop (sampleRate : ℕ)
    (threshold minSilenceDuration : ℝ) (w : ℕ) :
    ∀ (fuel i : ℕ) (data : List ℝ) (st : DetectState),
      speechDetectLoop sampleRate threshold minSilenceDuration w fuel i data st
        = detectLoop sampleRate threshold minSilenceDuration w fuel i data st := by
  intro fuel
  induction fuel with
  | zero => intro i data st; rfl
  | succ n ih =>
      intro i data st
      cases data with
      | nil => rfl
      | cons x xs =>
          simp only [speechDetectLoop, detectLoop, speechDetectStep_eq_detectStep]
          exact ih _ _ _

/-- C10: detectSpeechSegments and detectVoiceThreshold compute the same
interval list — the speechSegments field equals the silenceSegments
field on every input, because the speech-labelled detector emits the
silence intervals themselves. -/
theorem detectSpeechSegments_eq_detectVoiceThreshold (buffer : AudioBuffer)
    (minSilenceDuration thresholdDB : ℝ) :
    (detectSpeechSegments buffer minSilenceDuration thresholdDB).speechSegments
      = (detectVoiceThreshold buffer minSilenceDuration thresholdDB).silenceSegments := by
  simp only [detectSpeechSegments, detectVoiceThreshold,
    speechDetectLoop_eq_detectLoop]

theorem batch_foldl_spec {α β γ : Type} (f : α → List β) (g : α → γ) (s : α → ℝ) :
    ∀ (l : List α) (a : List (List β) × List γ × ℝ),
      l.foldl (fun acc x => (acc.1 ++ [f x], acc.2.1 ++ [g x], acc.2.2 + s x)) a
        = (a.1 ++ l.map f, a.2.1 ++ l.map g, a.2.2 + (l.map s).sum) := by
  intro l
  induction l with
  | nil => intro a; simp
  | cons x xs ih =>
      intro a
      simp only [List.foldl_cons, ih, List.map_cons, List.sum_cons]
      refine Prod.ext (by simp) (Prod.ext (by simp) ?_)
      simp [add_assoc]

/-- C5: for every list of clip ranges, batchProcessAudioClips returns one
encoded blob per range (each produced by processAudioClip), and a report
whose totalClips and clips.length equal the number of ranges and whose
processedDuration and totalDuration both equal the sum of the range
durations; each ClipReport is built from calculateClipStatistics on the
original source buffer over the raw range, not from the post-effect
output. -/
theorem batchProcessAudioClips_report_spec (clips : List (ℝ × ℝ))
    (originalBuffer : AudioBuffer) (options : ProcessingOptions) :
    (batchProcessAudioClips clips originalBuffer options).1
      = clips.map (fun c => processAudioClip c.1 c.2 originalBuffer options) ∧
    (batchProcessAudioClips clips originalBuffer options).1.length = clips.length ∧
    (batchProcessAudioClips clips originalBuffer options).2.totalClips
      = clips.length ∧
    (batchProcessAudioClips clips originalBuffer options).2.clips.length
      = clips.length ∧
    (batchProcessAudioClips clips originalBuffer options).2.processedDuration
      = (clips.map (fun c => c.2 - c.1)).sum ∧
    (batchProcessAudioClips clips originalBuffer options).2.totalDuration
      = (clips.map (fun c => c.2 - c.1)).sum ∧
    ∀ k : ℕ,
      (batchProcessAudioClips clips originalBuffer options).2.clips[k]?
        = (clips[k]?).map (fun clip =>
            { startTime := clip.1
              endTime := clip.2
              duration := clip.2 - clip.1
              peakDb := (calculateClipStatistics originalBuffer clip.1 clip.2).peakDb
              avgDb := (calculateClipStatistics originalBuffer clip.1 clip.2).avgDb }) := by
  have h := batch_foldl_spec
    (fun c : ℝ × ℝ => processAudioClip c.1 c.2 originalBuffer options)
    (fun c : ℝ × ℝ =>
      ({ startTime := c.1
         endTime := c.2
         duration := c.2 - c.1
         peakDb := (calculateClipStatistics originalBuffer c.1 c.2).peakDb
         avgDb := (calculateClipStatistics originalBuffer c.1 c.2).avgDb } : ClipReport))
    (fun c : ℝ × ℝ => c.2 - c.1) clips ([], [], 0)
  simp only [batchProcessAudioClips]
  rw [h]
  refine ⟨by simp, by simp, by simp, by simp, by simp, by simp, fun k => ?_⟩
  simp [List.getElem?_map]

theorem getD_map_nil {α β : Type} (f : List α → List β) (hf : f [] = [])
    (l : List (List α)) (c : ℕ) : (l.map f).getD c [] = f (l.getD c []) := by
  rcases h : l[c]? with _ | ch
  · simp [List.getD_eq_getElem?_getD, h, hf]
  · simp [List.getD_eq_getElem?_getD, h]

/-- C6: applyNoiseReduction keeps the sample rate and the channel layout,
and every output sample is the input sample scaled by 1 - amount when
its absolute value is below the channel threshold
noiseFloor * (1 + amount * 5) — the noise floor being the average
absolute amplitude of the first min(floor(sampleRate * 0.5), length)
samples — and by 1 - amount * 0.5 otherwise; no sample is replaced by
anything but a scaled copy of the corresponding input sample, and the
input buffer is a value that is not mutated. -/
theorem applyNoiseReduction_spec (buffer : AudioBuffer) (amount : ℝ)
    (h0 : 0 ≤ amount) (h1 : amount ≤ 1) :
    (applyNoiseReduction buffer amount).sampleRate = buffer.sampleRate ∧
    (applyNoiseReduction buffer amount).channels.length = buffer.channels.length ∧
    ∀ c i : ℕ,
      ((applyNoiseReduction buffer amount).getChannelData c)[i]?
        = ((buffer.getChannelData c)[i]?).map (fun s =>
            if |s| < (((buffer.getChannelData c).take
                    (min (⌊(buffer.sampleRate : ℝ) * 0.5⌋).toNat buffer.length)).map
                      (fun v => |v|)).sum /
                  ((min (⌊(buffer.sampleRate : ℝ) * 0.5⌋).toNat buffer.length : ℕ) : ℝ) *
                  (1 + amount * 5)
            then s * (1 - amount) else s * (1 - amount * 0.5)) := by
  refine ⟨rfl, by simp [applyNoiseReduction], fun c i => ?_⟩
  show (((buffer.channels.map _).getD c []) : List ℝ)[i]? = _
  rw [getD_map_nil _ rfl]
  simp only [AudioBuffer.getChannelData, List.getElem?_map]

/-- C9 counterexample: a fade stage given a zero-length buffer does not
fail: it returns the zero-length buffer unchanged (its loop bound
min(floor(0.2 * 44100), 0) is 0 and its body contains no validation and
no throw). -/
theorem applyFadeIn_zero_length_returns_buffer :
    applyFadeIn ⟨[[]], 44100⟩ 0.2 = (⟨[[]], 44100⟩ : AudioBuffer) ∧
    applyFadeOut ⟨[[]], 44100⟩ 0.2 = (⟨[[]], 44100⟩ : AudioBuffer) := by
  constructor <;> simp [applyFadeIn, applyFadeOut]

/-- C9 amended: no effect stage validates its input; in particular the
fade stages, whose bodies contain no error path at all, return a
zero-length buffer unchanged instead of failing fast. -/
theorem fade_stages_zero_length_passthrough (b : AudioBuffer) (d : ℝ)
    (hz : ∀ ch ∈ b.channels, ch = []) :
    applyFadeIn b d = b ∧ applyFadeOut b d = b := by
  cases b with
  | mk channels sampleRate =>
      have hmap : ∀ (f : ℕ → ℝ → ℝ),
          channels.map (fun channelData => channelData.mapIdx f) = channels := by
        intro f
        calc channels.map (fun channelData => channelData.mapIdx f)
            = channels.map id := by
              refine List.map_congr_left (fun ch hch => ?_)
              rw [hz ch hch]
              rfl
          _ = channels := List.map_id channels
      constructor
      · simp only [applyFadeIn]
        rw [AudioBuffer.mk.injEq]
        exact ⟨hmap _, rfl⟩
      · simp only [applyFadeOut]
        rw [AudioBuffer.mk.injEq]
        exact ⟨hmap _, rfl⟩

theorem fade_stages_zero_length_passthrough_witness :
    applyFadeIn ⟨[[]], 44100⟩ 0.3 = (⟨[[]], 44100⟩ : AudioBuffer) ∧
    applyFadeOut ⟨[[]], 44100⟩ 0.3 = (⟨[[]], 44100⟩ : AudioBuffer) :=
  fade_stages_zero_length_passthrough ⟨[[]], 44100⟩ 0.3 (by simp)

theorem applyNoiseReduction_spec_witness :
    (applyNoiseReduction ⟨[[1]], 4⟩ (1 / 2)).sampleRate = 4 :=
  (applyNoiseReduction_spec ⟨[[1]], 4⟩ (1 / 2) (by norm_num) (by norm_num)).1

theorem applyFadeIn_sampleRate (b : AudioBuffer) (d : ℝ) :
    (applyFadeIn b d).sampleRate = b.sampleRate := rfl

theorem applyFadeIn_length (b : AudioBuffer) (d : ℝ) :
    (applyFadeIn b d).length = b.length := by
  simp only [applyFadeIn, AudioBuffer.length]
  cases b.channels with
  | nil => rfl
  | cons ch chs => simp

/-- C8: applying applyFadeIn and then applyFadeOut, each over
min(requestedDuration, bufferDuration / 2) at its edge, leaves every
sample of the middle region — at or past the fade-in sample count and
before the fade-out window at the tail — exactly equal to the input
sample, on every channel. -/
theorem fadeIn_fadeOut_middle_unchanged (b : AudioBuffer) (dIn dOut : ℝ)
    (hIn : 0 ≤ dIn) (hOut : 0 ≤ dOut)
    (hlen : ∀ ch ∈ b.channels, ch.length = b.length)
    (hsum : dIn + dOut < b.duration) :
    ∀ c i : ℕ,
      (min ⌊min dIn (b.duration / 2) * (b.sampleRate : ℝ)⌋ (b.length : ℤ)).toNat ≤ i →
      i + (min ⌊min dOut (b.duration / 2) * (b.sampleRate : ℝ)⌋ (b.length : ℤ)).toNat
          < b.length →
      ((applyFadeOut (applyFadeIn b (min dIn (b.duration / 2)))
            (min dOut (b.duration / 2))).getChannelData c)[i]?
        = (b.getChannelData c)[i]? := by
  intro c i hiF hiO
  have hsr : (applyFadeIn b (min dIn (b.duration / 2))).sampleRate = b.sampleRate := rfl
  have hle : (applyFadeIn b (min dIn (b.duration / 2))).length = b.length :=
    applyFadeIn_length b _
  simp only [applyFadeOut, AudioBuffer.getChannelData]
  rw [hle, hsr]
  simp only [applyFadeIn]
  rw [getD_map_nil _ rfl, getD_map_nil _ rfl]
  simp only [List.getElem?_mapIdx]
  rcases hx : (b.channels.getD c [])[i]? with _ | x
  · rfl
  · simp only [Option.map_some']
    rw [if_neg (by omega), if_neg (by omega)]

theorem fadeIn_fadeOut_middle_unchanged_witness :
    ((applyFadeOut
        (applyFadeIn ⟨[[1, 1, 1, 1]], 2⟩
          (min (1 / 2) ((⟨[[1, 1, 1, 1]], 2⟩ : AudioBuffer).duration / 2)))
        (min (1 / 2) ((⟨[[1, 1, 1, 1]], 2⟩ : AudioBuffer).duration / 2))).getChannelData
          0)[1]?
      = ((⟨[[1, 1, 1, 1]], 2⟩ : AudioBuffer).getChannelData 0)[1]? := by
  refine fadeIn_fadeOut_middle_unchanged ⟨[[1, 1, 1, 1]], 2⟩ (1 / 2) (1 / 2)
    (by norm_num) (by norm_num) (by simp [AudioBuffer.length]) ?_ 0 1 ?_ ?_
  · show (1 / 2 : ℝ) + 1 / 2 < (⟨[[1, 1, 1, 1]], 2⟩ : AudioBuffer).duration
    norm_num [AudioBuffer.duration, AudioBuffer.length]
  · norm_num [AudioBuffer.duration, AudioBuffer.length, Int.floor_eq_iff]
  · norm_num [AudioBuffer.duration, AudioBuffer.length, Int.floor_eq_iff]

theorem foldl_peak_eq_foldl_max (l : List ℝ) : ∀ m : ℝ,
    l.foldl (fun acc v => if |v| > acc then |v| else acc) m
      = l.foldl (fun acc v => max acc |v|) m := by
  induction l with
  | nil => intro m; rfl
  | cons x xs ih =>
      intro m
      simp only [List.foldl_cons, ih]
      congr 1
      rcases le_or_lt |x| m with h | h
      · rw [if_neg (not_lt.2 h), max_eq_left h]
      · rw [if_pos h, max_eq_right h.le]

theorem peakAmplitude_eq_max_fold (b : AudioBuffer) :
    peakAmplitude b
      = b.channels.foldl (fun acc ch => ch.foldl (fun a v => max a |v|) acc) 0 := by
  suffices h : ∀ (chs : List (List ℝ)) (m : ℝ),
      chs.foldl (fun acc ch => ch.foldl (fun a v => if |v| > a then |v| else a) acc) m
        = chs.foldl (fun acc ch => ch.foldl (fun a v => max a |v|) acc) m from
    h b.channels 0
  intro chs
  induction chs with
  | nil => intro m; rfl
  | cons ch chs ih =>
      intro m
      simp only [List.foldl_cons, foldl_peak_eq_foldl_max, ih]

theorem clampscale_abs (g s : ℝ) (hg : 0 < g) :
    |if s * g > 1 then (1 : ℝ) else if s * g < -1 then -1 else s * g|
      = min (g * |s|) 1 := by
  have habs : g * |s| = |s * g| := by
    rw [abs_mul, abs_of_pos hg, mul_comm]
  rw [habs]
  by_cases h1 : s * g > 1
  · rw [if_pos h1, abs_one, min_eq_right (le_trans h1.le (le_abs_self _))]
  · rw [if_neg h1]
    by_cases h2 : s * g < -1
    · have hle : (1 : ℝ) ≤ -(s * g) := by linarith
      rw [if_pos h2, abs_neg, abs_one, min_eq_right (hle.trans (neg_le_abs _))]
    · rw [if_neg h2, min_eq_left (abs_le.2 ⟨by linarith, by linarith⟩)]

theorem foldl_max_clampscale (g : ℝ) (hg : 0 < g) (l : List ℝ) : ∀ m : ℝ,
    (l.map (fun s => if s * g > 1 then (1 : ℝ) else if s * g < -1 then -1 else s * g)).foldl
        (fun acc v => max acc |v|) (min (g * m) 1)
      = min (g * l.foldl (fun acc v => max acc |v|) m) 1 := by
  induction l with
  | nil => intro m; rfl
  | cons x xs ih =>
      intro m
      simp only [List.map_cons, List.foldl_cons]
      rw [clampscale_abs g x hg, ← inf_sup_right, ← mul_max_of_nonneg _ _ hg.le]
      exact ih (max m |x|)

theorem nested_fold_clampscale (g : ℝ) (hg : 0 < g) (chs : List (List ℝ)) : ∀ m : ℝ,
    (chs.map (fun ch =>
        ch.map (fun s => if s * g > 1 then (1 : ℝ) else if s * g < -1 then -1 else s * g))).foldl
        (fun acc ch => ch.foldl (fun a v => max a |v|) acc) (min (g * m) 1)
      = min (g * chs.foldl (fun acc ch => ch.foldl (fun a v => max a |v|) acc) m) 1 := by
  induction chs with
  | nil => intro m; rfl
  | cons ch chs ih =>
      intro m
      simp only [List.map_cons, List.foldl_cons]
      rw [foldl_max_clampscale g hg ch m]
      exact ih _

theorem peak_channels_clampscale (g : ℝ) (hg : 0 < g) (chs : List (List ℝ)) :
    (chs.map (fun ch =>
        ch.map (fun s => if s * g > 1 then (1 : ℝ) else if s * g < -1 then -1 else s * g))).foldl
        (fun acc ch => ch.foldl (fun a v => max a |v|) acc) 0
      = min (g * chs.foldl (fun acc ch => ch.foldl (fun a v => max a |v|) acc) 0) 1 := by
  have h0 : (0 : ℝ) = min (g * 0) 1 := by
    rw [mul_zero]
    exact (min_eq_left zero_le_one).symm
  nth_rewrite 1 [h0]
  exact nested_fold_clampscale g hg chs 0

theorem peakAmplitude_applyNormalization (x : AudioBuffer) (t : ℝ) :
    peakAmplitude (applyNormalization x t)
      = min ((10 : ℝ) ^ ((t - 20 * Real.logb 10 (peakAmplitude x)) / 20)
          * peakAmplitude x) 1 := by
  have hg : (0 : ℝ) < (10 : ℝ) ^ ((t - 20 * Real.logb 10 (peakAmplitude x)) / 20) :=
    Real.rpow_pos_of_pos (by norm_num) _
  simp only [applyNormalization]
  generalize hG : (10 : ℝ) ^ ((t - 20 * Real.logb 10 (peakAmplitude x)) / 20) = G
  rw [hG] at hg
  rw [peakAmplitude_eq_max_fold, peakAmplitude_eq_max_fold]
  exact peak_channels_clampscale G hg x.channels

/-- C7: applying applyNormalization twice with the same target leaves the
peak absolute amplitude of the once-normalized buffer exactly unchanged
(a change of zero, at most any small epsilon), for every buffer with a
nonzero peak. -/
theorem applyNormalization_idempotent_peak (b : AudioBuffer) (targetDb : ℝ)
    (hp : 0 < peakAmplitude b) :
    peakAmplitude (applyNormalization (applyNormalization b targetDb) targetDb)
      = peakAmplitude (applyNormalization b targetDb) := by
  have key : ∀ x : AudioBuffer, 0 < peakAmplitude x →
      peakAmplitude (applyNormalization x targetDb)
        = min ((10 : ℝ) ^ (targetDb / 20)) 1 := by
    intro x hx
    rw [peakAmplitude_applyNormalization x targetDb]
    have h2 : (10 : ℝ) ^ ((targetDb - 20 * Real.logb 10 (peakAmplitude x)) / 20)
        * peakAmplitude x = (10 : ℝ) ^ (targetDb / 20) := by
      have hdiv : (targetDb - 20 * Real.logb 10 (peakAmplitude x)) / 20
          = targetDb / 20 - Real.logb 10 (peakAmplitude x) := by ring
      rw [hdiv, Real.rpow_sub (by norm_num : (0 : ℝ) < 10),
        Real.rpow_logb (by norm_num) (by norm_num) hx]
      field_simp
    rw [h2]
  have hpos1 : 0 < peakAmplitude (applyNormalization b targetDb) := by
    rw [key b hp]
    exact lt_min (Real.rpow_pos_of_pos (by norm_num) _) one_pos
  rw [key _ hpos1, key b hp]

theorem applyNormalization_idempotent_peak_witness :
    peakAmplitude (applyNormalization (applyNormalization ⟨[[1 / 2]], 10⟩ (-3)) (-3))
      = peakAmplitude (applyNormalization ⟨[[1 / 2]], 10⟩ (-3)) := by
  refine applyNormalization_idempotent_peak ⟨[[1 / 2]], 10⟩ (-3) ?_
  norm_num [peakAmplitude]

/-- C3 counterexample: on the all-zero one-sample buffer the live-buffer
statistics return rms = 0 but dbFS = -Infinity (bottom): the log
argument is not clamped to any floor, so the dBFS value is infinite,
contrary to the claim. -/
theorem calculateAudioStats_allzero_dbFS_bot :
    (calculateAudioStats [0]).rms = 0 ∧ (calculateAudioStats [0]).dbFS = ⊥ := by
  constructor
  · norm_num [calculateAudioStats]
  · norm_num [calculateAudioStats, jsLog10]

theorem fold_max_bot_allzero :
    ∀ l : List ℝ, l ≠ [] → (∀ x ∈ l, x = 0) →
      l.foldl (fun m v => max m ((|v| : ℝ) : WithBot ℝ)) ⊥ = ((0 : ℝ) : WithBot ℝ) := by
  have aux : ∀ l : List ℝ, (∀ x ∈ l, x = 0) →
      l.foldl (fun m v => max m ((|v| : ℝ) : WithBot ℝ)) ((0 : ℝ) : WithBot ℝ)
        = ((0 : ℝ) : WithBot ℝ) := by
    intro l
    induction l with
    | nil => intro _; rfl
    | cons x xs ih =>
        intro h
        have hx : x = 0 := h x (List.mem_cons_self x xs)
        simp only [List.foldl_cons, hx, abs_zero, max_self]
        exact ih (fun y hy => h y (List.mem_cons_of_mem x hy))
  intro l hne h
  cases l with
  | nil => exact absurd rfl hne
  | cons x xs =>
      have hx : x = 0 := h x (List.mem_cons_self x xs)
      simp only [List.foldl_cons, hx, abs_zero, bot_sup_eq]
      exact aux xs (fun y hy => h y (List.mem_cons_of_mem x hy))

/-- C3 amended: calculateAudioStats applies no floor to the log argument:
on every nonempty all-zero buffer it returns rms = 0 and dbFS =
-Infinity (bottom), whereas calculateClipStatistics over the same
all-zero samples floors its zero average and zero peak at 0.00001 and
returns finite dB values. -/
theorem calculateAudioStats_no_floor (data : List ℝ) (sr : ℕ) (hsr : 0 < sr)
    (hne : data ≠ []) (hzero : ∀ x ∈ data, x = 0) :
    (calculateAudioStats data).rms = 0 ∧
    (calculateAudioStats data).dbFS = ⊥ ∧
    (calculateClipStatistics ⟨[data], sr⟩ 0 ((data.length : ℝ) / (sr : ℝ))).avgDb
      = 20 * Real.logb 10 0.00001 ∧
    (calculateClipStatistics ⟨[data], sr⟩ 0 ((data.length : ℝ) / (sr : ℝ))).peakDb
      = ((20 * Real.logb 10 0.00001 : ℝ) : WithBot ℝ) := by
  have hsq : (data.map (fun v => v * v)).sum = 0 := by
    refine List.sum_eq_zero (fun y hy => ?_)
    rcases List.mem_map.1 hy with ⟨x, hx, rfl⟩
    rw [hzero x hx, mul_zero]
  have habs : (data.map (fun v => |v|)).sum = 0 := by
    refine List.sum_eq_zero (fun y hy => ?_)
    rcases List.mem_map.1 hy with ⟨x, hx, rfl⟩
    rw [hzero x hx, abs_zero]
  have hrms : (calculateAudioStats data).rms = 0 := by
    simp only [calculateAudioStats]
    rw [hsq, zero_div, Real.sqrt_zero]
  refine ⟨hrms, ?_, ?_, ?_⟩
  · show (jsLog10 (calculateAudioStats data).rms).map (fun l => 20 * l)
      = (⊥ : WithBot ℝ)
    rw [hrms]
    simp [jsLog10]
  all_goals
    have hstart : (⌊(0 : ℝ) * ((sr : ℕ) : ℝ)⌋).toNat = 0 := by norm_num
  all_goals
    have hend : (⌊(data.length : ℝ) / ((sr : ℕ) : ℝ) * ((sr : ℕ) : ℝ)⌋).toNat
        = data.length := by
      rw [div_mul_cancel₀]
      · simp
      · exact_mod_cast hsr.ne'
  all_goals
    simp only [calculateClipStatistics, AudioBuffer.getChannelData, hstart, hend,
      List.getD_cons_zero, List.drop_zero, Nat.sub_zero, List.take_length]
  · rw [habs, zero_div]
    simp
  · rw [fold_max_bot_allzero data hne hzero]
    simp

theorem calculateAudioStats_no_floor_witness :
    (calculateClipStatistics ⟨[[0]], 1⟩ 0
        ((([0] : List ℝ).length : ℝ) / ((1 : ℕ) : ℝ))).avgDb
      = 20 * Real.logb 10 0.00001 :=
  (calculateAudioStats_no_floor [0] 1 (by norm_num) (by simp) (by simp)).2.2.1

/-- C1: evaluation of detectVoiceThreshold at sample rate 20 (one sample
per window), linear threshold 1/10 (thresholdDB = -20) and
minSilenceDuration 1/10 on samples 0, 1, 0, 1, 1: the two
below-threshold windows at indices 0 and 2 are separated by the
above-threshold window at index 1, yet the detector still declares
silence at window 2 — the silence counter is never reset by a loud
window — producing the interval (1/20, 1/5).  Under the claimed
consecutive-window hysteresis no silence would ever be declared on this
input. -/
theorem detectVoiceThreshold_cumulative_hysteresis :
    (detectVoiceThreshold ⟨[[0, 1, 0, 1, 1]], 20⟩ (1 / 10) (-20)).silenceSegments
      = [(1 / 20, 1 / 5)] := by
  have hw : windowSize 20 = 1 := by norm_num [windowSize, jsRound]
  have hthr : (10 : ℝ) ^ ((-20 : ℝ) / 20) = 1 / 10 := by
    rw [show ((-20 : ℝ) / 20) = -1 by norm_num, Real.rpow_neg_one]
    norm_num
  simp only [detectVoiceThreshold, AudioBuffer.getChannelData, List.getD_cons_zero]
  rw [hthr]
  norm_num [hw, detectLoop, detectStep, windowRms]

theorem u16le_length (n : ℕ) : (u16le n).length = 2 := rfl

theorem u32le_length (n : ℕ) : (u32le n).length = 4 := rfl

theorem i16le_length (z : ℤ) : (i16le z).length = 2 := rfl

theorem drop_append_ge {l₁ l₂ : List ℕ} (i : ℕ) (h : l₁.length ≤ i) :
    (l₁ ++ l₂).drop i = l₂.drop (i - l₁.length) := by
  have hi : i = l₁.length + (i - l₁.length) := by omega
  nth_rewrite 1 [hi]
  exact List.drop_append _

theorem flatMap_length_const {α : Type} (f : α → List ℕ) (m : ℕ)
    (hf : ∀ x, (f x).length = m) :
    ∀ l : List α, (l.flatMap f).length = m * l.length := by
  intro l
  induction l with
  | nil => simp
  | cons x xs ih =>
      simp only [List.flatMap_cons, List.length_append, hf, ih, List.length_cons]
      ring

theorem flatMap_drop_const {α : Type} (f : α → List ℕ) (m : ℕ)
    (hf : ∀ x, (f x).length = m) :
    ∀ (l : List α) (i : ℕ), (l.flatMap f).drop (m * i) = (l.drop i).flatMap f := by
  intro l
  induction l with
  | nil => intro i; simp
  | cons x xs ih =>
      intro i
      cases i with
      | zero => simp
      | succ j =>
          rw [List.flatMap_cons,
            drop_append_ge _ (by rw [hf]; exact Nat.le_mul_of_pos_right m (Nat.succ_pos j)),
            show m * (j + 1) - (f x).length = m * j by rw [hf, Nat.mul_succ]; omega,
            List.drop_succ_cons]
          exact ih j

theorem flatMap_index_two (f : ℝ → List ℕ) (hf : ∀ x, (f x).length = 2)
    (l : List ℝ) (k : ℕ) (hk : k < l.length) :
    ((l.flatMap f).drop (2 * k)).take 2 = f (l.getD k 0) := by
  rw [flatMap_drop_const f 2 hf l k, List.drop_eq_getElem_cons hk, List.flatMap_cons,
    List.getD_eq_getElem l 0 hk]
  nth_rewrite 1 [show (2 : ℕ) = (f (l[k])).length from (hf _).symm]
  exact List.take_left _ _

theorem stereo_payload_blocks (L R : List ℝ) (i : ℕ)
    (hiL : i < L.length) (hiR : i < R.length) :
    (((List.zip L R).flatMap
        (fun p => i16le (pcm16 p.1) ++ i16le (pcm16 p.2))).drop (4 * i)).take 2
      = i16le (pcm16 (L.getD i 0)) ∧
    (((List.zip L R).flatMap
        (fun p => i16le (pcm16 p.1) ++ i16le (pcm16 p.2))).drop (4 * i + 2)).take 2
      = i16le (pcm16 (R.getD i 0)) := by
  have hz : i < (List.zip L R).length := by
    rw [List.length_zip]
    omega
  have hdrop := flatMap_drop_const
    (fun p : ℝ × ℝ => i16le (pcm16 p.1) ++ i16le (pcm16 p.2)) 4
    (fun p => by simp [i16le, u16le]) (List.zip L R) i
  have hblock : (List.zip L R).drop i
      = (L[i], R[i]) :: (List.zip L R).drop (i + 1) := by
    rw [List.drop_eq_getElem_cons hz, List.getElem_zip]
  constructor
  · rw [hdrop, hblock, List.flatMap_cons, List.append_assoc,
      List.getD_eq_getElem L 0 hiL]
    nth_rewrite 1 [show (2 : ℕ) = (i16le (pcm16 (L[i]))).length from rfl]
    exact List.take_left _ _
  · rw [← List.drop_drop, hdrop, hblock, List.flatMap_cons, List.append_assoc,
      drop_append_ge 2 (by simp [i16le, u16le]),
      show (2 : ℕ) - (i16le (pcm16 ((L[i], R[i]).1))).length = 0 from rfl,
      List.drop_zero, List.getD_eq_getElem R 0 hiR]
    nth_rewrite 1 [show (2 : ℕ) = (i16le (pcm16 (R[i]))).length from rfl]
    exact List.take_left _ _

theorem audioBufferToWav_decode16_22 (b : AudioBuffer)
    (h : b.numberOfChannels < 2 ^ 16) :
    decodeU16le (audioBufferToWav b) 22 = b.numberOfChannels := by
  simp only [audioBufferToWav, decodeU16le, u16le, u32le, tagRIFF, tagWAVE, tagFmt,
    tagData]
  simp only [List.cons_append, List.nil_append]
  simp
  omega

theorem audioBufferToWav_decode32_24 (b : AudioBuffer)
    (h : b.sampleRate < 2 ^ 32) :
    decodeU32le (audioBufferToWav b) 24 = b.sampleRate := by
  simp only [audioBufferToWav, decodeU32le, u16le, u32le, tagRIFF, tagWAVE, tagFmt,
    tagData]
  simp only [List.cons_append, List.nil_append]
  simp
  omega

theorem audioBufferToWav_decode32_40 (b : AudioBuffer)
    (h : b.length * b.numberOfChannels * 2 < 2 ^ 32) :
    decodeU32le (audioBufferToWav b) 40 = b.length * b.numberOfChannels * 2 := by
  simp only [audioBufferToWav, decodeU32le, u16le, u32le, tagRIFF, tagWAVE, tagFmt,
    tagData, Nat.add_sub_cancel]
  simp only [List.cons_append, List.nil_append]
  simp
  omega

theorem audioBufferToWav_header_split (b : AudioBuffer) :
    ∃ H : List ℕ, H.length = 44 ∧ audioBufferToWav b
      = H ++ (if b.numberOfChannels = 1 then
          (b.getChannelData 0).flatMap (fun s => i16le (pcm16 s))
        else
          (List.zip (b.getChannelData 0) (b.getChannelData 1)).flatMap
            (fun p => i16le (pcm16 p.1) ++ i16le (pcm16 p.2))) := by
  refine ⟨tagRIFF ++ u32le (b.length * b.numberOfChannels * 2 + 44 - 8) ++ tagWAVE ++
    tagFmt ++ u32le 16 ++ u16le 1 ++ u16le b.numberOfChannels ++ u32le b.sampleRate ++
    u32le (b.sampleRate * b.numberOfChannels * 2) ++ u16le (b.numberOfChannels * 2) ++
    u16le 16 ++ tagData ++ u32le (b.length * b.numberOfChannels * 2 + 44 - 44),
    ?_, ?_⟩
  · simp [u32le_length, u16le_length, tagRIFF, tagWAVE, tagFmt, tagData]
  · simp only [audioBufferToWav, List.append_assoc]

/-- C4: the WAV encoder produces 44 + n * channels * 2 bytes; the
little-endian header records the channel count at offset 22, the sample
rate at offset 24 and the data-chunk byte length n * channels * 2 at
offset 40; and the two bytes at offset 44 + 2k hold the PCM16 encoding
(clamp to [-1, 1], scale by 0x8000 when negative and 0x7FFF otherwise)
of sample k of the interleaving that alternates channel 0 and channel 1
sample-by-sample (k-th interleaved sample = channel k mod c, index
k div c). -/
theorem audioBufferToWav_spec (b : AudioBuffer) (n : ℕ)
    (hlen : ∀ ch ∈ b.channels, ch.length = n)
    (hc : b.numberOfChannels = 1 ∨ b.numberOfChannels = 2)
    (hsr : b.sampleRate < 2 ^ 32)
    (hdata : n * b.numberOfChannels * 2 < 2 ^ 32) :
    (audioBufferToWav b).length = 44 + n * b.numberOfChannels * 2 ∧
    decodeU16le (audioBufferToWav b) 22 = b.numberOfChannels ∧
    decodeU32le (audioBufferToWav b) 24 = b.sampleRate ∧
    decodeU32le (audioBufferToWav b) 40 = n * b.numberOfChannels * 2 ∧
    ∀ k, k < n * b.numberOfChannels →
      ((audioBufferToWav b).drop (44 + 2 * k)).take 2
        = i16le (pcm16 ((b.getChannelData (k % b.numberOfChannels)).getD
            (k / b.numberOfChannels) 0)) := by
  have hbl : b.length = n := by
    rcases hc with h | h <;>
    · rw [AudioBuffer.numberOfChannels] at h
      rw [AudioBuffer.length]
      cases hch : b.channels with
      | nil => rw [hch] at h; simp at h
      | cons ch rest =>
          simp only [List.headD_cons]
          exact hlen ch (by rw [hch]; exact List.mem_cons_self ch rest)
  have h16 : b.numberOfChannels < 2 ^ 16 := by
    rcases hc with h | h <;> rw [h] <;> norm_num
  refine ⟨?_, audioBufferToWav_decode16_22 b h16, audioBufferToWav_decode32_24 b hsr,
    by rw [audioBufferToWav_decode32_40 b (by rw [hbl]; exact hdata), hbl], ?_⟩
  · -- byte length
    obtain ⟨H, hH, hEq⟩ := audioBufferToWav_header_split b
    rw [hEq, List.length_append, hH]
    rcases hc with h1 | h2
    · rw [if_pos h1, h1]
      have hch0 : (b.getChannelData 0).length = n := by
        rw [AudioBuffer.getChannelData]
        cases hch : b.channels with
        | nil => rw [AudioBuffer.numberOfChannels, hch] at h1; simp at h1
        | cons ch rest =>
            simp only [List.getD_cons_zero]
            exact hlen ch (by rw [hch]; exact List.mem_cons_self ch rest)
      rw [flatMap_length_const (fun s => i16le (pcm16 s)) 2 (fun x => rfl), hch0]
      omega
    · rw [if_neg (by rw [h2]; norm_num), h2]
      obtain ⟨L, R, hLR⟩ := List.length_eq_two.mp
        (by rw [AudioBuffer.numberOfChannels] at h2; exact h2)
      have hL : L.length = n := hlen L (by rw [hLR]; simp)
      have hR : R.length = n := hlen R (by rw [hLR]; simp)
      rw [flatMap_length_const _ 4 (fun p => by simp [i16le, u16le])]
      rw [AudioBuffer.getChannelData, AudioBuffer.getChannelData, hLR]
      simp only [List.getD_cons_zero, List.getD_cons_succ, List.length_zip, hL, hR]
      omega
  · -- payload bytes
    intro k hk
    obtain ⟨H, hH, hEq⟩ := audioBufferToWav_header_split b
    rw [hEq, drop_append_ge _ (by rw [hH]; omega), hH,
      show 44 + 2 * k - 44 = 2 * k from by omega]
    rcases hc with h1 | h2
    · rw [if_pos h1, h1, Nat.mod_one, Nat.div_one]
      have hch0 : (b.getChannelData 0).length = n := by
        rw [AudioBuffer.getChannelData]
        cases hch : b.channels with
        | nil => rw [AudioBuffer.numberOfChannels, hch] at h1; simp at h1
        | cons ch rest =>
            simp only [List.getD_cons_zero]
            exact hlen ch (by rw [hch]; exact List.mem_cons_self ch rest)
      refine flatMap_index_two (fun s => i16le (pcm16 s)) (fun x => rfl) _ k ?_
      rw [hch0]
      rw [h1] at hk
      omega
    · rw [if_neg (by rw [h2]; norm_num), h2]
      obtain ⟨L, R, hLR⟩ := List.length_eq_two.mp
        (by rw [AudioBuffer.numberOfChannels] at h2; exact h2)
      have hL : L.length = n := hlen L (by rw [hLR]; simp)
      have hR : R.length = n := hlen R (by rw [hLR]; simp)
      rw [h2] at hk
      simp only [AudioBuffer.getChannelData, hLR]
      rcases Nat.mod_two_eq_zero_or_one k with hm | hm
      · rw [hm, show 2 * k = 4 * (k / 2) from by omega]
        simpa using (stereo_payload_blocks L R (k / 2) (by omega) (by omega)).1
      · rw [hm, show 2 * k = 4 * (k / 2) + 2 from by omega]
        simpa using (stereo_payload_blocks L R (k / 2) (by omega) (by omega)).2

theorem audioBufferToWav_spec_witness :
    (audioBufferToWav ⟨[[1 / 2]], 44100⟩).length
      = 44 + 1 * (⟨[[1 / 2]], 44100⟩ : AudioBuffer).numberOfChannels * 2 :=
  (audioBufferToWav_spec ⟨[[1 / 2]], 44100⟩ 1 (by simp) (Or.inl rfl) (by norm_num)
    (by norm_num [AudioBuffer.numberOfChannels])).1

theorem detectInv_init (w sampleRate : ℕ) (minSilenceDuration : ℝ) :
    DetectInv w sampleRate minSilenceDuration 0 ⟨false, 0, 0, 0, []⟩ := by
  refine ⟨by simp, by simp, by simp, ?_, ?_⟩
  · intro _ h
    simp at h
  · intro h
    simp at h

theorem detectStep_inv (sampleRate : ℕ) (threshold minSilenceDuration rms : ℝ)
    (w i : ℕ) (hw : 1 ≤ w) (hsr : 1 ≤ sampleRate) (st : DetectState)
    (hinv : DetectInv w sampleRate minSilenceDuration i st) :
    DetectInv w sampleRate minSilenceDuration (i + w)
      (detectStep sampleRate threshold minSilenceDuration w i st rms) := by
  obtain ⟨ha, hb, hc, hd, he⟩ := hinv
  have hr : (0 : ℝ) < (sampleRate : ℝ) := by
    have h1 : 0 < sampleRate := hsr
    exact_mod_cast h1
  have hw0 : (0 : ℝ) ≤ (w : ℝ) := by positivity
  have hw1 : (1 : ℝ) ≤ (w : ℝ) := by exact_mod_cast hw
  have hdiv : ∀ a b : ℝ, a ≤ b →
      a / (sampleRate : ℝ) ≤ b / (sampleRate : ℝ) :=
    fun a b h => div_le_div_of_nonneg_right h hr.le
  simp only [detectStep]
  by_cases hrms : rms < threshold
  · rw [if_pos hrms]
    by_cases henter : st.inSilence = false ∧ 2 ≤ st.consecutiveSilenceFrames + 1
    · rw [if_pos henter]
      have hwi : w ≤ i := hd henter.1 (by omega)
      have hwiR : (w : ℝ) ≤ (i : ℝ) := by exact_mod_cast hwi
      refine ⟨ha, ?_, hc, ?_, ?_⟩
      · intro s hs
        exact (hb s hs).trans (hdiv _ _ (by push_cast; linarith))
      · intro h
        simp at h
      · intro _
        refine ⟨div_nonneg (by linarith) hr.le, hdiv _ _ (by push_cast; linarith), ?_⟩
        intro s hs
        exact hb s hs
    · rw [if_neg henter]
      refine ⟨ha, ?_, hc, ?_, ?_⟩
      · intro s hs
        exact (hb s hs).trans (hdiv _ _ (by push_cast; linarith))
      · intro _ _
        omega
      · intro hsil
        obtain ⟨h1, h2, h3⟩ := he hsil
        exact ⟨h1, h2.trans (hdiv _ _ (by push_cast; linarith)), h3⟩
  · rw [if_neg hrms]
    by_cases hexit : st.inSilence = true ∧ 2 ≤ st.consecutiveNonSilenceFrames + 1
    · rw [if_pos hexit]
      obtain ⟨hs0, hs2, hall⟩ := he hexit.1
      by_cases hcommit : minSilenceDuration
          ≤ (i : ℝ) / (sampleRate : ℝ) - st.silenceStart
      · rw [if_pos hcommit]
        refine ⟨?_, ?_, ?_, ?_, ?_⟩
        · intro s hs
          rcases List.mem_append.1 hs with h | h
          · exact ha s h
          · simp only [List.mem_singleton] at h
            subst h
            refine ⟨hs0, ?_, by linarith⟩
            calc st.silenceStart
                ≤ ((i : ℝ) - 2 * (w : ℝ)) / (sampleRate : ℝ) := hs2
              _ < (i : ℝ) / (sampleRate : ℝ) := by
                  exact (div_lt_div_iff_of_pos_right hr).mpr (by linarith)
        · intro s hs
          rcases List.mem_append.1 hs with h | h
          · exact ((hall s h).trans hs2).trans (hdiv _ _ (by push_cast; linarith))
          · simp only [List.mem_singleton] at h
            subst h
            exact hdiv _ _ (by push_cast; linarith)
        · rw [List.pairwise_append]
          refine ⟨hc, List.pairwise_singleton _ _, ?_⟩
          intro a haa y hy
          simp only [List.mem_singleton] at hy
          subst hy
          exact hall a haa
        · intro _ h1
          omega
        · intro h
          simp at h
      · rw [if_neg hcommit]
        refine ⟨ha, ?_, hc, ?_, ?_⟩
        · intro s hs
          exact (hb s hs).trans (hdiv _ _ (by push_cast; linarith))
        · intro _ h1
          omega
        · intro h
          simp at h
    · rw [if_neg hexit]
      refine ⟨ha, ?_, hc, ?_, ?_⟩
      · intro s hs
        exact (hb s hs).trans (hdiv _ _ (by push_cast; linarith))
      · intro hfalse h1
        exact (hd hfalse h1).trans (Nat.le_add_right i w)
      · intro hsil
        obtain ⟨h1, h2, h3⟩ := he hsil
        exact ⟨h1, h2.trans (hdiv _ _ (by push_cast; linarith)), h3⟩

theorem detectLoop_inv (sampleRate w : ℕ) (threshold minSilenceDuration : ℝ)
    (hw : 1 ≤ w) (hsr : 1 ≤ sampleRate) :
    ∀ (fuel : ℕ) (data : List ℝ) (i : ℕ) (st : DetectState),
      data.length ≤ fuel →
      DetectInv w sampleRate minSilenceDuration i st →
      ∃ i2 : ℕ, i2 ≤ i + data.length + (w - 1) ∧ (data.length = 0 → i2 = i) ∧
        DetectInv w sampleRate minSilenceDuration i2
          (detectLoop sampleRate threshold minSilenceDuration w fuel i data st) := by
  intro fuel
  induction fuel with
  | zero =>
      intro data i st hf hinv
      exact ⟨i, by omega, fun _ => rfl, hinv⟩
  | succ m ih =>
      intro data i st hf hinv
      cases data with
      | nil => exact ⟨i, by omega, fun _ => rfl, hinv⟩
      | cons x xs =>
          have hstep := detectStep_inv sampleRate threshold minSilenceDuration
            (windowRms ((x :: xs).take w)) w i hw hsr st hinv
          have hlen2 : ((x :: xs).drop w).length ≤ m := by
            simp only [List.length_drop, List.length_cons] at hf ⊢
            omega
          obtain ⟨i2, hi2, hnil2, hinv2⟩ := ih ((x :: xs).drop w) (i + w) _ hlen2 hstep
          refine ⟨i2, ?_, by simp, hinv2⟩
          have hd2 : ((x :: xs).drop w).length = xs.length + 1 - w := by
            simp [List.length_drop]
          by_cases hwl : ((x :: xs).drop w).length = 0
          · have hieq : i2 = i + w := hnil2 hwl
            simp only [List.length_cons]
            omega
          · rw [hd2] at hi2 hwl
            simp only [List.length_cons]
            omega

/-- C2: the silence-interval list returned by detectVoiceThreshold on a
single-channel buffer is made of intervals that last at least
minSilenceDuration, have nonnegative start strictly below their end,
end no later than bufferLength / sampleRate, and are pairwise sorted and
non-overlapping (each interval ends no later than the next one starts).
The hypotheses ask for a positive window size — equivalently a sample
rate of at least 10 Hz — because the source loop does not terminate when
Math.round(sampleRate * 0.05) is zero. -/
theorem detectVoiceThreshold_segments_invariants (data : List ℝ) (sr : ℕ)
    (minSilenceDuration thresholdDB : ℝ)
    (hw : 1 ≤ windowSize sr) (hsr : 1 ≤ sr) :
    (∀ s ∈ (detectVoiceThreshold ⟨[data], sr⟩ minSilenceDuration
        thresholdDB).silenceSegments,
        minSilenceDuration ≤ s.2 - s.1 ∧ 0 ≤ s.1 ∧ s.1 < s.2 ∧
        s.2 ≤ (data.length : ℝ) / (sr : ℝ)) ∧
    List.Pairwise (fun a b : ℝ × ℝ => a.2 ≤ b.1)
      (detectVoiceThreshold ⟨[data], sr⟩ minSilenceDuration
        thresholdDB).silenceSegments := by
  have hr : (0 : ℝ) < (sr : ℝ) := by
    have h1 : 0 < sr := hsr
    exact_mod_cast h1
  have hwR : (1 : ℝ) ≤ (windowSize sr : ℝ) := by exact_mod_cast hw
  obtain ⟨i2, hi2, hnil, hinv⟩ := detectLoop_inv sr (windowSize sr)
    ((10 : ℝ) ^ (thresholdDB / 20)) minSilenceDuration hw hsr data.length data 0
    ⟨false, 0, 0, 0, []⟩ (le_refl _) (detectInv_init _ _ _)
  obtain ⟨ha, hb, hc, hd, he⟩ := hinv
  have hi2R : (i2 : ℝ) ≤ (data.length : ℝ) + (windowSize sr : ℝ) - 1 := by
    have h0 : i2 ≤ data.length + (windowSize sr - 1) := by omega
    have h2 : (i2 : ℝ) ≤ ((data.length + (windowSize sr - 1) : ℕ) : ℝ) := by
      exact_mod_cast h0
    rw [Nat.cast_add, Nat.cast_sub hw] at h2
    push_cast at h2
    linarith
  have hbound : ∀ s ∈ (detectLoop sr ((10 : ℝ) ^ (thresholdDB / 20))
      minSilenceDuration (windowSize sr) data.length 0 data
      ⟨false, 0, 0, 0, []⟩).segments,
      s.2 ≤ (data.length : ℝ) / (sr : ℝ) := by
    intro s hs
    refine (hb s hs).trans (div_le_div_of_nonneg_right ?_ hr.le)
    linarith
  have base : ∀ s ∈ (detectLoop sr ((10 : ℝ) ^ (thresholdDB / 20))
      minSilenceDuration (windowSize sr) data.length 0 data
      ⟨false, 0, 0, 0, []⟩).segments,
      minSilenceDuration ≤ s.2 - s.1 ∧ 0 ≤ s.1 ∧ s.1 < s.2 ∧
      s.2 ≤ (data.length : ℝ) / (sr : ℝ) :=
    fun s hs => ⟨(ha s hs).2.2, (ha s hs).1, (ha s hs).2.1, hbound s hs⟩
  simp only [detectVoiceThreshold, AudioBuffer.getChannelData, List.getD_cons_zero]
  refine ⟨?_, ?_⟩
  · split_ifs with h1 h2
    · intro s hs
      rcases List.mem_append.1 hs with hmem | hmem
      · exact base s hmem
      · simp only [List.mem_singleton] at hmem
        subst hmem
        obtain ⟨hs0, hs2, hall⟩ := he h1
        refine ⟨h2, hs0, ?_, le_refl _⟩
        calc (detectLoop sr ((10 : ℝ) ^ (thresholdDB / 20)) minSilenceDuration
            (windowSize sr) data.length 0 data ⟨false, 0, 0, 0, []⟩).silenceStart
            ≤ ((i2 : ℝ) - 2 * (windowSize sr : ℝ)) / (sr : ℝ) := hs2
          _ < (data.length : ℝ) / (sr : ℝ) :=
            (div_lt_div_iff_of_pos_right hr).mpr (by linarith)
    · intro s hs
      exact base s hs
    · intro s hs
      exact base s hs
  · split_ifs with h1 h2
    · rw [List.pairwise_append]
      refine ⟨hc, List.pairwise_singleton _ _, ?_⟩
      intro a haa y hy
      simp only [List.mem_singleton] at hy
      subst hy
      exact (he h1).2.2 a haa
    · exact hc
    · exact hc

theorem detectVoiceThreshold_segments_invariants_witness :
    List.Pairwise (fun a b : ℝ × ℝ => a.2 ≤ b.1)
      (detectVoiceThreshold ⟨[[0, 0, 0]], 20⟩ 0 (-20)).silenceSegments :=
  (detectVoiceThreshold_segments_invariants [0, 0, 0] 20 0 (-20)
    (by norm_num [windowSize, jsRound]) (by norm_num)).2

end

end WellCut
